import Mathlib

/-!
# Verification of the SQL migration engine (`app/maintenance/migration.py`)

Shallow embedding of the migration engine of this repository:

* `split_sql_statements` — the SQL statement splitter (line comments,
  dollar-quoted strings, semicolon statement boundaries), embedded as an
  index-based scan mirroring the Python `while i < n` loop;
* `get_applied_migrations`, `apply_migration`, `run_migrations`,
  `check_migrations_status`, `is_migration_complete` and the readiness
  check `_check_migrations_status` of `app/k8s/readyz.py` — embedded over
  an explicit ledger (the `applied_migrations` table as a list of rows in
  insertion order) and an environment record standing for the filesystem,
  the configuration and the database statement executor.

Wall-clock timing is abstracted (recorded durations are data the claims do
not constrain); `applied_at` timestamps are modelled by the insertion
index, which is strictly monotone exactly as `NOW()` is across successive
inserts.
-/

namespace Migration

/-! ## Statement splitter (`split_sql_statements`, migration.py lines 286-374) -/

/-- Python tag-character test `sql[j].isalpha() or sql[j] == '_'` used for
dollar-quote tags. -/
def isTagChar (c : Char) : Bool := c.isAlpha || c == '_'

/-- The inner scan `while j < n and (sql[j].isalpha() or sql[j] == '_')`:
collects the run of tag characters and its length. -/
def scanTag : List Char → List Char × Nat
  | [] => ([], 0)
  | c :: rest =>
    if isTagChar c then
      let r := scanTag rest
      (c :: r.1, r.2 + 1)
    else ([], 0)

/-- Python `str.strip()` on the character list of a statement. -/
def stripChars (l : List Char) : List Char :=
  ((l.dropWhile Char.isWhitespace).reverse.dropWhile Char.isWhitespace).reverse

/-- The mutable locals of the scanning loop in `split_sql_statements`. -/
structure SplitState where
  statements : List (List Char)
  current : List Char
  inDollarQuote : Bool
  dollarTag : List Char
deriving DecidableEq

/-- Starting locals: `statements = []`, `current = ""`,
`in_dollar_quote = False`, `dollar_tag = ""`. -/
def initSplitState : SplitState :=
  { statements := [], current := [], inDollarQuote := false, dollarTag := [] }

/-- The semicolon/default tail of the loop body: terminate the current
statement on a semicolon outside a dollar quote, otherwise accumulate the
character. -/
def consumeOne (st : SplitState) (c : Char) : SplitState :=
  if c == ';' && !st.inDollarQuote then
    let cur := st.current ++ [c]
    { st with
      current := [],
      statements :=
        if (stripChars cur).isEmpty then st.statements
        else st.statements ++ [stripChars cur] }
  else { st with current := st.current ++ [c] }

/-- One iteration of the `while i < n` loop of `split_sql_statements`:
given the position `i` (with `i < sql.length`), returns the next position
and the updated locals.  Branches in source order: line-comment skip,
dollar-quote open, dollar-quote close, then semicolon/default. -/
def splitStep (sql : List Char) (i : Nat) (st : SplitState) : Nat × SplitState :=
  let n := sql.length
  let c := sql.getD i ' '
  if !st.inDollarQuote && c == '-' && decide (i + 1 < n) && (sql.getD (i + 1) ' ' == '-') then
    (i + ((sql.drop i).takeWhile (fun d => d != '\n')).length, st)
  else if c == '$' && !st.inDollarQuote then
    let t := scanTag (sql.drop (i + 1))
    let j := i + 1 + t.2
    if decide (j < n) && (sql.getD j ' ' == '$') then
      (j + 1,
       { st with
         inDollarQuote := true
         dollarTag := t.1
         current := st.current ++ (sql.drop i).take (j + 1 - i) })
    else (i + 1, consumeOne st c)
  else if c == '$' && st.inDollarQuote then
    let t := scanTag (sql.drop (i + 1))
    let j := i + 1 + t.2
    if decide (j < n) && (sql.getD j ' ' == '$') && (t.1 == st.dollarTag) then
      (j + 1,
       { st with
         inDollarQuote := false
         current := st.current ++ (sql.drop i).take (j + 1 - i) })
    else (i + 1, consumeOne st c)
  else (i + 1, consumeOne st c)

/-- The scanning loop, driven by explicit fuel so that it is structurally
recursive; `none` means the fuel ran out before the scan finished
(`splitLoop_some` below shows fuel `sql.length` always suffices, because
`splitStep` strictly increases the position). -/
def splitLoop (sql : List Char) : Nat → Nat → SplitState → Option SplitState
  | 0, i, st => if i < sql.length then none else some st
  | fuel + 1, i, st =>
    if i < sql.length then
      splitLoop sql fuel (splitStep sql i st).1 (splitStep sql i st).2
    else some st

/-- Python `split_sql_statements(sql)`: run the scan from position 0 and
flush the trailing statement.  The `none` arm is unreachable
(`splitLoop_some`). -/
def split_sql_statements (sql : String) : List String :=
  match splitLoop sql.data sql.data.length 0 initSplitState with
  | some st =>
    let finalStmts :=
      if (stripChars st.current).isEmpty then st.statements
      else st.statements ++ [stripChars st.current]
    finalStmts.map (fun l => String.mk l)
  | none => []

/-! ## String order for `sorted(...)`

Python sorts script names by code-point lexicographic order; the core
`String` order does not reduce in the kernel, so the same order is defined
here on the underlying character lists. -/

/-- Code-point lexicographic strict order, as Python compares strings. -/
def charListLt : List Char → List Char → Bool
  | _, [] => false
  | [], _ :: _ => true
  | a :: as, b :: bs =>
    if a.toNat == b.toNat then charListLt as bs else decide (a.toNat < b.toNat)

/-- String order `a <= b` (negation of the strict order the other way). -/
def strLe (a b : String) : Prop := charListLt b.data a.data = false

instance : DecidableRel strLe := fun _ _ => inferInstanceAs (Decidable (_ = false))

instance : IsTotal String strLe := by
  constructor
  intro a b
  have asymm : ∀ (x y : List Char), charListLt x y = true → charListLt y x = false := by
    intro x
    induction x with
    | nil => intro y _; cases y <;> simp [charListLt]
    | cons a as ih =>
      intro y h
      cases y with
      | nil => simp [charListLt] at h
      | cons b bs =>
        simp only [charListLt] at h ⊢
        by_cases hab : a.toNat = b.toNat
        · simp only [hab, beq_self_eq_true, if_true] at h
          simp [hab, ih _ h]
        · have hne : ¬ (a.toNat == b.toNat) = true := by simpa using hab
          simp only [if_neg hne, decide_eq_true_eq] at h
          have h2 : ¬ (b.toNat == a.toNat) = true := by simp; omega
          simp only [if_neg h2, decide_eq_false_iff_not]
          omega
  by_cases h : charListLt b.data a.data = true
  · right
    exact asymm _ _ h
  · left
    simpa [strLe] using h

instance : IsTrans String strLe := by
  constructor
  have key : ∀ (a b c : List Char), charListLt b a = false →
      charListLt c b = false → charListLt c a = false := by
    intro a
    induction a with
    | nil =>
      intro b c _ _
      cases c with
      | nil => simp [charListLt]
      | cons z zs => simp [charListLt]
    | cons x xs ih =>
      intro b c hba hcb
      cases c with
      | nil =>
        cases b with
        | nil => simp [charListLt] at hba
        | cons y ys => simp [charListLt] at hcb
      | cons z zs =>
        cases b with
        | nil => simp [charListLt] at hba
        | cons y ys =>
          simp only [charListLt] at hba hcb ⊢
          by_cases hyx : y.toNat = x.toNat
          · simp only [hyx, beq_self_eq_true, if_true] at hba
            by_cases hzy : z.toNat = y.toNat
            · simp only [hzy, beq_self_eq_true, if_true] at hcb
              have hzx : (z.toNat == x.toNat) = true := by simp; omega
              simp only [hzx, if_true]
              exact ih ys zs hba hcb
            · have h1 : ¬ (z.toNat == y.toNat) = true := by simpa using hzy
              simp only [if_neg h1, decide_eq_false_iff_not] at hcb
              have h2 : ¬ (z.toNat == x.toNat) = true := by simp; omega
              simp only [if_neg h2, decide_eq_false_iff_not]
              omega
          · have h1 : ¬ (y.toNat == x.toNat) = true := by simpa using hyx
            simp only [if_neg h1, decide_eq_false_iff_not] at hba
            by_cases hzy : z.toNat = y.toNat
            · have h2 : ¬ (z.toNat == x.toNat) = true := by simp; omega
              simp only [if_neg h2, decide_eq_false_iff_not]
              omega
            · have h2 : ¬ (z.toNat == y.toNat) = true := by simpa using hzy
              simp only [if_neg h2, decide_eq_false_iff_not] at hcb
              by_cases hzx : z.toNat = x.toNat
              · have h3 : (z.toNat == x.toNat) = true := by simpa using hzx
                simp only [h3, if_true]
                omega
              · have h3 : ¬ (z.toNat == x.toNat) = true := by simpa using hzx
                simp only [if_neg h3, decide_eq_false_iff_not]
                omega
  intro a b c hab hbc
  exact key _ _ _ hab hbc

/-- Python `sorted(...)` on a list of script names. -/
def sortStrings (l : List String) : List String := List.insertionSort strLe l

/-! ## The ledger (`applied_migrations` table) and the engine environment -/

/-- One row of the `applied_migrations` table (columns of the CREATE TABLE
at lines 177-189).  The `applied_at` timestamp is modelled by a natural
number; the engine inserts with the current ledger length, which is
strictly monotone just as `NOW()` is across successive inserts. -/
structure Row where
  name : String
  name_app : String
  applied_at : Nat
  checksum : String
  execution_time_ms : Nat
  status : String
  error_message : Option String
deriving DecidableEq

/-- The table contents, in insertion order (the table is append-only). -/
abbrev Ledger := List Row

/-- The value `get_applied_migrations` keeps per name:
`(checksum, execution_time_ms, status)` (line 232). -/
def rowData (r : Row) : String × Nat × String := (r.checksum, r.execution_time_ms, r.status)

/-- A Python dict from script name to row data, as an association list in
insertion order. -/
abbrev MigDict := List (String × (String × Nat × String))

/-- Python `migrations[key] = value`: overwrite the entry in place if the
key is present, otherwise append a fresh key at the end. -/
def dictInsert : MigDict → String → String × Nat × String → MigDict
  | [], k, v => [(k, v)]
  | p :: rest, k, v => if p.1 == k then (p.1, v) :: rest else p :: dictInsert rest k v

/-- Python `dict[key]` on the association list. -/
def dictLookup (d : MigDict) (k : String) : Option (String × Nat × String) :=
  (d.find? (fun p => p.1 == k)).map (fun p => p.2)

/-- Row comparison used by `ORDER BY applied_at`. -/
def rowLe (a b : Row) : Prop := a.applied_at ≤ b.applied_at

instance : DecidableRel rowLe := fun a b => Nat.decLe a.applied_at b.applied_at

instance : IsTotal Row rowLe := ⟨fun a b => Nat.le_total a.applied_at b.applied_at⟩

instance : IsTrans Row rowLe := ⟨fun _ _ _ => Nat.le_trans⟩

/-- Tenant filter `WHERE name_app = :app_name` (line 226). -/
def rowsFor (ledger : Ledger) (app : String) : List Row :=
  ledger.filter (fun r => r.name_app == app)

/-- The `SELECT name, checksum, execution_time_ms, status FROM
applied_migrations WHERE name_app = :app_name ORDER BY applied_at`
of lines 223-228. -/
def ledgerQuery (ledger : Ledger) (app : String) : List Row :=
  List.insertionSort rowLe (rowsFor ledger app)

/-- Python `get_applied_migrations(session, app_name)` (lines 206-250):
builds a dict from name to `(checksum, execution_time_ms, status)` by
iterating the rows in apply-time order, so a later row overwrites an
earlier entry. -/
def get_applied_migrations (ledger : Ledger) (app : String) : MigDict :=
  (ledgerQuery ledger app).foldl (fun d r => dictInsert d r.name (rowData r)) []

/-- The environment a run reads: configuration, discovery, the filesystem
and the database statement executor.  `appName = none` models a missing
`NAME_APP` (fatal in `get_app_name`), `files = none` a missing migrations
directory (fatal in `get_migration_files`), `read f = none` an OS error
reading script `f` (raised inside `calculate_checksum` and `open`),
`execOk q = false` a statement whose `session.execute` raises, with
`errMsg q` the database error text, and `sha c` the SHA-256 hex digest of
the script content `c` that `calculate_checksum` computes. -/
structure Env where
  appName : Option String
  files : Option (List String)
  read : String → Option String
  execOk : String → Bool
  errMsg : String → String
  sha : String → String

/-- Bind-parameter names the text of the error-row INSERT requires
(lines 461-465): `:name, :name_app, :checksum, :execution_time,
:error_message`. -/
def errorInsertBindNames : List String :=
  ["name", "name_app", "checksum", "execution_time", "error_message"]

/-- Keys of the parameter dict actually passed to that INSERT
(lines 466-472) — note `"app_name"`, not `"name_app"`. -/
def errorInsertParamKeys : List String :=
  ["name", "app_name", "checksum", "execution_time", "error_message"]

/-- SQLAlchemy resolves each `:param` of a statement against the keys of
the supplied dict; a missing key makes `execute` raise before anything
reaches the database. -/
def bindsResolve (required provided : List String) : Bool :=
  required.all (fun r => provided.contains r)

/-- The success row inserted at lines 427-439. -/
def successRow (env : Env) (file app content : String) (ts : Nat) : Row :=
  { name := file, name_app := app, applied_at := ts, checksum := env.sha content,
    execution_time_ms := 0, status := "success", error_message := none }

/-- The error row the INSERT at lines 460-473 would write if its binds
resolved: truncated error message `str(e)[:1000]` and elapsed time. -/
def errorRow (env : Env) (file app content failing : String) (ts : Nat) : Row :=
  { name := file, name_app := app, applied_at := ts, checksum := env.sha content,
    execution_time_ms := 0, status := "error",
    error_message := some (String.mk ((env.errMsg failing).data.take 1000)) }

/-- Result of one `apply_migration` call: the returned boolean and the
table contents afterwards. -/
structure ApplyOut where
  ok : Bool
  ledger : Ledger
deriving DecidableEq

/-- Python `apply_migration(session, migration_file, app_name)`
(lines 376-480).

* An unreadable file makes `calculate_checksum` raise; the `except` branch
  then attempts the error-row INSERT, which itself raises (`checksum` is
  an unbound local there, and the binds do not resolve), is caught at line
  475, logged and rolled back — the function returns `False` with the
  ledger unchanged.
* When a statement fails, the script's transaction is rolled back and the
  same error-row INSERT is attempted in a fresh transaction; its bind
  parameters do not resolve (`:name_app` has no matching key), so it
  raises, is caught and rolled back: the ledger is again unchanged.
* When every statement succeeds, a success row is inserted and
  committed. -/
def apply_migration (env : Env) (ledger : Ledger) (file app : String) : ApplyOut :=
  match env.read file with
  | none => { ok := false, ledger := ledger }
  | some content =>
    let statements := split_sql_statements content
    match statements.find? (fun q => !(env.execOk q)) with
    | none =>
      { ok := true, ledger := ledger ++ [successRow env file app content ledger.length] }
    | some q =>
      { ok := false,
        ledger :=
          if bindsResolve errorInsertBindNames errorInsertParamKeys then
            ledger ++ [errorRow env file app content q ledger.length]
          else ledger }

/-- Keys of the applied dict, `set(get_applied_migrations(...).keys())`
(line 514). -/
def appliedKeys (ledger : Ledger) (app : String) : List String :=
  (get_applied_migrations ledger app).map Prod.fst

/-- The `pending = sorted(all_files - applied)` of line 516: every ledger
row, `error` rows included, removes its script from the pending set. -/
def pendingOf (files : List String) (ledger : Ledger) (app : String) : List String :=
  sortStrings (files.dedup.filter (fun f => !(appliedKeys ledger app).contains f))

/-- Pending as the spec words it, for comparison with `pendingOf`:
discovered minus exactly the names that have a ledger row with
`status = success` for the tenant, sorted ascending. -/
def specPending (files : List String) (ledger : Ledger) (app : String) : List String :=
  sortStrings (files.dedup.filter (fun f =>
    !(ledger.any (fun r => r.name == f && r.name_app == app && r.status == "success"))))

/-- The `for migration_file in pending` loop of `run_migrations`
(lines 539-569): on a `False` from `apply_migration` the loop stops and
the names applied so far are returned with the completion flag left
`False`; when the loop completes, the flag is set `True`
(lines 582-585). -/
def applyLoop (env : Env) (app : String) :
    List String → Ledger → List String → List String × Ledger × Bool
  | [], ledger, acc => (acc, ledger, true)
  | f :: rest, ledger, acc =>
    let out := apply_migration env ledger f app
    if out.ok then applyLoop env app rest out.ledger (acc ++ [f])
    else (acc, out.ledger, false)

instance : DecidableEq (Except String (List String)) := fun a b => by
  cases a with
  | error x =>
    cases b with
    | error y =>
      by_cases h : x = y
      · subst h; exact isTrue rfl
      · exact isFalse (by intro hh; injection hh; contradiction)
    | ok y => exact isFalse (fun hh => by simp at hh)
  | ok x =>
    cases b with
    | error y => exact isFalse (fun hh => by simp at hh)
    | ok y =>
      by_cases h : x = y
      · subst h; exact isTrue rfl
      · exact isFalse (by intro hh; injection hh; contradiction)

/-- Outcome of one `run_migrations()` call: the returned list (or a raised
`MigrationError`), the table contents afterwards, and the value of the
process-wide `migration_complete` flag afterwards.  Every path through
`run_migrations` assigns the flag, so the prior flag value is
irrelevant. -/
structure RunOut where
  result : Except String (List String)
  ledger : Ledger
  flag : Bool
deriving DecidableEq

/-- Python `run_migrations()` (lines 482-595). -/
def run_migrations (env : Env) (ledger : Ledger) : RunOut :=
  match env.appName with
  | none => { result := Except.error "config", ledger := ledger, flag := false }
  | some app =>
    match env.files with
    | none => { result := Except.error "discovery", ledger := ledger, flag := false }
    | some files =>
      let pending := pendingOf files ledger app
      if pending.isEmpty then { result := Except.ok [], ledger := ledger, flag := true }
      else
        let out := applyLoop env app pending ledger []
        { result := Except.ok out.1, ledger := out.2.1, flag := out.2.2 }

/-- Python `is_migration_complete()` (lines 597-605): returns the global
flag. -/
def is_migration_complete (flag : Bool) : Bool := flag

/-- Python `check_migrations_status()` (lines 607-664): read-only; its
pending set again subtracts every name present in the dict, whatever its
status. -/
def check_migrations_status (env : Env) (ledger : Ledger) :
    Bool × List String × List String :=
  match env.appName, env.files with
  | some app, some files =>
    let applied := get_applied_migrations ledger app
    let failed := (applied.filter (fun p => p.2.2.2 == "error")).map Prod.fst
    let pending := sortStrings (files.dedup.filter (fun f => !(applied.map Prod.fst).contains f))
    if !pending.isEmpty || !failed.isEmpty then (false, pending, failed)
    else (true, [], [])
  | _, _ => (false, [], [])

/-- The `_check_migrations_status()` of `app/k8s/readyz.py`
(lines 142-171): answer from the flag when it is set, otherwise fall back
to a fresh `check_migrations_status()` computation. -/
def readyz_check_migrations (flag : Bool) (env : Env) (ledger : Ledger) : Bool :=
  if is_migration_complete flag then true
  else (check_migrations_status env ledger).1

/-- Whether `apply_migration` succeeds for a script: the file is readable
and every statement of the split executes. -/
def applyOk (env : Env) (f : String) : Bool :=
  match env.read f with
  | none => false
  | some content => ((split_sql_statements content).find? (fun q => !(env.execOk q))).isNone

/-- The success rows a run appends for the prefix of scripts it applies,
timestamps continuing from `base`. -/
def successExt (env : Env) (app : String) : Nat → List String → Ledger
  | _, [] => []
  | base, f :: rest =>
    successRow env f app ((env.read f).getD "") base :: successExt env app (base + 1) rest

/-! ## Concrete fixtures for witnesses and counterexamples -/

/-- A ledger row recording a failed attempt for `001-a.sql`. -/
def cRow0 : Row :=
  { name := "001-a.sql", name_app := "tenant", applied_at := 0, checksum := "c0",
    execution_time_ms := 5, status := "error", error_message := some "boom" }

/-- A later ledger row recording a successful attempt for `001-a.sql`. -/
def cRow1 : Row :=
  { name := "001-a.sql", name_app := "tenant", applied_at := 1, checksum := "c1",
    execution_time_ms := 7, status := "success", error_message := none }

/-- Environment with one script whose single statement fails. -/
def envStmtFail : Env :=
  { appName := some "tenant", files := some ["001-bad.sql"],
    read := fun f => if f == "001-bad.sql" then some "BROKEN;" else none,
    execOk := fun _ => false, errMsg := fun _ => "sql error",
    sha := fun _ => "abc123" }

/-- Environment with three scripts, the middle one failing. -/
def envHalt : Env :=
  { appName := some "tenant", files := some ["001-ok.sql", "002-bad.sql", "003-ok.sql"],
    read := fun f =>
      if f == "001-ok.sql" then some "SELECT 1;"
      else if f == "002-bad.sql" then some "FAIL;"
      else if f == "003-ok.sql" then some "SELECT 3;"
      else none,
    execOk := fun q => !(q == "FAIL;"), errMsg := fun _ => "bad statement",
    sha := fun _ => "abc123" }

/-- Environment with a single script whose file cannot be read. -/
def envReadFail : Env :=
  { appName := some "tenant", files := some ["001-a.sql"],
    read := fun _ => none, execOk := fun _ => true,
    errMsg := fun _ => "io error", sha := fun _ => "abc123" }

/-- Environment with a single script that applies cleanly. -/
def envAllOk : Env :=
  { appName := some "tenant", files := some ["001-a.sql"],
    read := fun f => if f == "001-a.sql" then some "SELECT 1;" else none,
    execOk := fun _ => true, errMsg := fun _ => "",
    sha := fun _ => "abc123" }

/-! ## Splitter theorems -/

theorem splitStep_increases (sql : List Char) (i : Nat) (st : SplitState)
    (h : i < sql.length) : i < (splitStep sql i st).1 := by
  unfold splitStep
  dsimp only
  split_ifs with h1 h2 h3 h4 h5
  · have hdrop : sql.drop i = sql[i] :: sql.drop (i + 1) := List.drop_eq_getElem_cons h
    have hget : sql.getD i ' ' = sql[i] := List.getD_eq_getElem sql ' ' h
    simp only [Bool.and_eq_true, beq_iff_eq] at h1
    have hchar : sql[i] = '-' := by rw [← hget]; exact h1.1.1.2
    rw [hdrop, hchar]
    simp [List.takeWhile]
  · dsimp only; omega
  · dsimp only; omega
  · dsimp only; omega
  · dsimp only; omega
  · dsimp only; omega

theorem splitLoop_some (sql : List Char) :
    ∀ (fuel i : Nat) (st : SplitState), sql.length - i ≤ fuel →
      (splitLoop sql fuel i st).isSome := by
  intro fuel
  induction fuel with
  | zero =>
    intro i st hle
    simp only [splitLoop]
    have h2 : ¬ i < sql.length := by omega
    simp [h2]
  | succ fuel ih =>
    intro i st hle
    simp only [splitLoop]
    split
    · rename_i hlt
      apply ih
      have := splitStep_increases sql i st hlt
      omega
    · simp

/-- C9: `split_sql_statements` terminates on every input: each iteration of
the scanning loop strictly increases the position index (comment-skip,
dollar-quote open/close, semicolon and default branches alike), hence the
scan from position 0 completes within `sql.length` iterations. -/
theorem splitter_total (sql : List Char) (i : Nat) (st : SplitState)
    (h : i < sql.length) :
    i < (splitStep sql i st).1 ∧
      (splitLoop sql sql.length 0 initSplitState).isSome :=
  ⟨splitStep_increases sql i st h, splitLoop_some sql sql.length 0 initSplitState (by omega)⟩

/-- Witness for C9 at a concrete input. -/
theorem splitter_total_witness :
    0 < (splitStep "ab;".data 0 initSplitState).1 ∧
      (splitLoop "ab;".data "ab;".data.length 0 initSplitState).isSome :=
  splitter_total "ab;".data 0 initSplitState (by decide)

/-- C3: the spec's splitter example: `"SELECT 1; -- comment\nDO $$ BEGIN
x := 1; END $$;"` splits into exactly two statements, the first being
`"SELECT 1;"` and the second the entire dollar-quoted block with its
internal semicolon intact. -/
theorem split_example :
    split_sql_statements "SELECT 1; -- comment\nDO $$ BEGIN x := 1; END $$;" =
      ["SELECT 1;", "DO $$ BEGIN x := 1; END $$;"] := by decide

/-! ## Engine lemmas -/

theorem binds_fail : bindsResolve errorInsertBindNames errorInsertParamKeys = false := by
  decide

theorem apply_migration_of_ok (env : Env) (ledger : Ledger) (f app : String)
    (h : applyOk env f = true) :
    apply_migration env ledger f app =
      { ok := true,
        ledger := ledger ++ [successRow env f app ((env.read f).getD "") ledger.length] } := by
  unfold apply_migration
  unfold applyOk at h
  cases hr : env.read f with
  | none => rw [hr] at h; simp at h
  | some content =>
    rw [hr] at h
    dsimp only
    simp only [Option.isNone_iff_eq_none] at h
    simp only [h, Option.getD_some]

theorem apply_migration_of_fail (env : Env) (ledger : Ledger) (f app : String)
    (h : applyOk env f = false) :
    apply_migration env ledger f app = { ok := false, ledger := ledger } := by
  unfold apply_migration
  unfold applyOk at h
  cases hr : env.read f with
  | none => rfl
  | some content =>
    rw [hr] at h
    dsimp only at h ⊢
    cases hq : (split_sql_statements content).find? (fun q => !(env.execOk q)) with
    | none => rw [hq] at h; simp at h
    | some q => simp only [hq, binds_fail, Bool.false_eq_true, if_false]

theorem applyLoop_eq (env : Env) (app : String) :
    ∀ (l : List String) (ledger : Ledger) (acc : List String),
      applyLoop env app l ledger acc =
        (acc ++ l.takeWhile (applyOk env),
         ledger ++ successExt env app ledger.length (l.takeWhile (applyOk env)),
         l.all (applyOk env)) := by
  intro l
  induction l with
  | nil => intro ledger acc; simp [applyLoop, successExt]
  | cons f rest ih =>
    intro ledger acc
    simp only [applyLoop]
    cases hok : applyOk env f with
    | false =>
      rw [apply_migration_of_fail env ledger f app hok]
      simp [List.takeWhile_cons, hok, successExt, List.all_cons]
    | true =>
      rw [apply_migration_of_ok env ledger f app hok]
      simp only []
      rw [ih]
      simp [List.takeWhile_cons, hok, successExt, List.all_cons, List.length_append,
        List.append_assoc]

theorem mem_keys_dictInsert (k x : String) (v : String × Nat × String) :
    ∀ d : MigDict, x ∈ (dictInsert d k v).map Prod.fst ↔ x ∈ d.map Prod.fst ∨ x = k := by
  intro d
  induction d with
  | nil => simp [dictInsert, eq_comm]
  | cons p rest ih =>
    simp only [dictInsert]
    split
    · rename_i hpk
      have hk : p.1 = k := by simpa using hpk
      subst hk
      simp only [List.map_cons, List.mem_cons]
      tauto
    · simp only [List.map_cons, List.mem_cons, ih]
      tauto

theorem mem_keys_fold (x : String) :
    ∀ (l : List Row) (d : MigDict),
      x ∈ (l.foldl (fun d r => dictInsert d r.name (rowData r)) d).map Prod.fst ↔
        x ∈ d.map Prod.fst ∨ ∃ r ∈ l, r.name = x := by
  intro l
  induction l with
  | nil => intro d; simp
  | cons r rest ih =>
    intro d
    simp only [List.foldl_cons]
    rw [ih, mem_keys_dictInsert]
    simp only [List.mem_cons]
    constructor
    · rintro (⟨h | h⟩ | ⟨s, hs, hname⟩)
      · exact Or.inl h
      · exact Or.inr ⟨r, Or.inl rfl, h.symm⟩
      · exact Or.inr ⟨s, Or.inr hs, hname⟩
    · rintro (h | ⟨s, hs | hs, hname⟩)
      · exact Or.inl (Or.inl h)
      · subst hs; exact Or.inl (Or.inr hname.symm)
      · exact Or.inr ⟨s, hs, hname⟩

theorem appliedKeys_mem_iff (ledger : Ledger) (app f : String) :
    f ∈ appliedKeys ledger app ↔ ∃ r ∈ ledger, r.name = f ∧ r.name_app = app := by
  unfold appliedKeys get_applied_migrations
  rw [mem_keys_fold]
  simp only [List.map_nil, List.not_mem_nil, false_or]
  unfold ledgerQuery
  constructor
  · rintro ⟨r, hrQ, hname⟩
    have hr2 : r ∈ rowsFor ledger app := (List.perm_insertionSort rowLe _).mem_iff.mp hrQ
    rw [rowsFor, List.mem_filter] at hr2
    exact ⟨r, hr2.1, hname, by simpa using hr2.2⟩
  · rintro ⟨r, hrl, hname, happ⟩
    refine ⟨r, ?_, hname⟩
    rw [(List.perm_insertionSort rowLe _).mem_iff, rowsFor, List.mem_filter]
    exact ⟨hrl, by simpa using happ⟩

theorem mem_pendingOf_iff (files : List String) (ledger : Ledger) (app f : String) :
    f ∈ pendingOf files ledger app ↔
      f ∈ files ∧ ¬ ∃ r ∈ ledger, r.name = f ∧ r.name_app = app := by
  unfold pendingOf sortStrings
  rw [(List.perm_insertionSort strLe _).mem_iff, List.mem_filter, List.mem_dedup]
  have h2 : ((fun g => !(appliedKeys ledger app).contains g) f = true) ↔
      f ∉ appliedKeys ledger app := by simp
  rw [h2]
  exact and_congr_right (fun _ => not_congr (appliedKeys_mem_iff ledger app f))

theorem successExt_mem (env : Env) (app : String) :
    ∀ (l : List String) (base : Nat) (f : String), f ∈ l →
      ∃ r ∈ successExt env app base l, r.name = f ∧ r.name_app = app := by
  intro l
  induction l with
  | nil => intro base f hf; simp at hf
  | cons g rest ih =>
    intro base f hf
    rcases List.mem_cons.mp hf with h | h
    · subst h
      exact ⟨successRow env f app ((env.read f).getD "") base,
        List.mem_cons_self _ _, rfl, rfl⟩
    · obtain ⟨r, hr, hprops⟩ := ih (base + 1) f h
      exact ⟨r, List.mem_cons_of_mem _ hr, hprops⟩

theorem run_halt_core (env : Env) (ledger : Ledger) (app : String) (files : List String)
    (happ : env.appName = some app) (hfiles : env.files = some files)
    (hfail : ∃ f ∈ pendingOf files ledger app, applyOk env f = false) :
    run_migrations env ledger =
      { result := Except.ok ((pendingOf files ledger app).takeWhile (applyOk env)),
        ledger := ledger ++ successExt env app ledger.length
          ((pendingOf files ledger app).takeWhile (applyOk env)),
        flag := false } := by
  obtain ⟨f, hf, hbad⟩ := hfail
  have hne : (pendingOf files ledger app).isEmpty = false := by
    cases hp : pendingOf files ledger app with
    | nil => rw [hp] at hf; simp at hf
    | cons a l => simp
  have hall : (pendingOf files ledger app).all (applyOk env) = false :=
    List.all_eq_false.mpr ⟨f, hf, by simp [hbad]⟩
  unfold run_migrations
  rw [happ, hfiles]
  dsimp only
  rw [if_neg (by simp [hne]), applyLoop_eq]
  dsimp only
  rw [hall]
  simp

/-! ## Claim theorems for the apply engine -/

/-- C4: when some pending script fails to apply, `run_migrations` halts
without raising: it returns exactly the names applied before the first
failure, the ledger gains success rows for exactly that prefix (so no
later pending script is attempted), and the completion flag is false. -/
theorem run_halts_on_failure (env : Env) (ledger : Ledger) (app : String)
    (files : List String) (happ : env.appName = some app)
    (hfiles : env.files = some files)
    (hfail : ∃ f ∈ pendingOf files ledger app, applyOk env f = false) :
    run_migrations env ledger =
      { result := Except.ok ((pendingOf files ledger app).takeWhile (applyOk env)),
        ledger := ledger ++ successExt env app ledger.length
          ((pendingOf files ledger app).takeWhile (applyOk env)),
        flag := false } :=
  run_halt_core env ledger app files happ hfiles hfail

/-- Witness for C4: three pending scripts, the middle one failing; the run
returns only the first and the third leaves no trace. -/
theorem run_halts_on_failure_witness :
    (∃ f ∈ pendingOf ["001-ok.sql", "002-bad.sql", "003-ok.sql"] ([] : Ledger) "tenant",
        applyOk envHalt f = false) ∧
      run_migrations envHalt [] =
        { result := Except.ok ((pendingOf ["001-ok.sql", "002-bad.sql", "003-ok.sql"]
              ([] : Ledger) "tenant").takeWhile (applyOk envHalt)),
          ledger := [] ++ successExt envHalt "tenant" 0
            ((pendingOf ["001-ok.sql", "002-bad.sql", "003-ok.sql"]
              ([] : Ledger) "tenant").takeWhile (applyOk envHalt)),
          flag := false } :=
  have hfail : ∃ f ∈ pendingOf ["001-ok.sql", "002-bad.sql", "003-ok.sql"]
      ([] : Ledger) "tenant", applyOk envHalt f = false :=
    ⟨"002-bad.sql", by decide, by decide⟩
  ⟨hfail, run_halts_on_failure envHalt [] "tenant" _ rfl rfl hfail⟩

/-- C5: after any run, the completion flag is true iff the run terminated
with every discovered script applied: configuration and discovery
succeeded, and every pending script (if any) applied successfully; every
run halted on a failure or aborted by a fatal error leaves it false. -/
theorem completion_flag_iff (env : Env) (ledger : Ledger) :
    (run_migrations env ledger).flag = true ↔
      ∃ app files, env.appName = some app ∧ env.files = some files ∧
        ∀ f ∈ pendingOf files ledger app, applyOk env f = true := by
  unfold run_migrations
  cases happ : env.appName with
  | none => simp
  | some app =>
    cases hfiles : env.files with
    | none => simp
    | some files =>
      dsimp only
      by_cases hp : (pendingOf files ledger app).isEmpty = true
      · rw [if_pos hp]
        rw [List.isEmpty_iff] at hp
        simp [hp]
      · rw [if_neg hp, applyLoop_eq]
        dsimp only
        constructor
        · intro hall
          exact ⟨app, files, rfl, rfl, fun f hf => List.all_eq_true.mp hall f hf⟩
        · rintro ⟨app2, files2, happ2, hfiles2, h⟩
          injection happ2 with ha
          injection hfiles2 with hb
          subst ha
          subst hb
          exact List.all_eq_true.mpr h

/-- Witness for C5 at a concrete run. -/
theorem completion_flag_iff_witness :
    (run_migrations envAllOk []).flag = true ↔
      ∃ app files, envAllOk.appName = some app ∧ envAllOk.files = some files ∧
        ∀ f ∈ pendingOf files [] app, applyOk envAllOk f = true :=
  completion_flag_iff envAllOk []

/-- C6 counterexample: with the only script's file unreadable, the run
returns normally (`Except.ok []`) with the flag false — nothing is raised,
so the read failure is NOT surfaced to the caller of the apply
operation. -/
theorem read_error_not_raised :
    run_migrations envReadFail [] =
      { result := Except.ok [], ledger := [], flag := false } := by decide

/-- C6 (amended): a script whose file cannot be read or checksummed makes
`apply_migration` return `False` — the exception is caught inside it — so
the run halts without raising, returning the names applied before that
script, and completion is not marked (the flag stays false). -/
theorem read_error_halts (env : Env) (ledger : Ledger) (app : String)
    (files : List String) (f : String) (happ : env.appName = some app)
    (hfiles : env.files = some files) (hf : f ∈ pendingOf files ledger app)
    (hread : env.read f = none) :
    (run_migrations env ledger).result =
        Except.ok ((pendingOf files ledger app).takeWhile (applyOk env)) ∧
      (run_migrations env ledger).flag = false := by
  have hbad : applyOk env f = false := by unfold applyOk; rw [hread]
  have hrun := run_halt_core env ledger app files happ hfiles ⟨f, hf, hbad⟩
  rw [hrun]
  exact ⟨rfl, rfl⟩

/-- Witness for the amended C6 at a concrete run. -/
theorem read_error_halts_witness :
    ("001-a.sql" ∈ pendingOf ["001-a.sql"] ([] : Ledger) "tenant" ∧
        envReadFail.read "001-a.sql" = none) ∧
      ((run_migrations envReadFail []).result =
          Except.ok ((pendingOf ["001-a.sql"] ([] : Ledger) "tenant").takeWhile
            (applyOk envReadFail)) ∧
        (run_migrations envReadFail []).flag = false) :=
  ⟨⟨by decide, rfl⟩,
   read_error_halts envReadFail [] "tenant" ["001-a.sql"] "001-a.sql" rfl rfl (by decide) rfl⟩

/-- C1 counterexample: one error-only row for `001-a.sql` removes it from
the code's pending set (both in `run_migrations` and in the status
functions, which share the same subtraction), while the claim's pending
set — discovered minus success rows only — still contains it. -/
theorem pending_error_row_counterexample :
    pendingOf ["001-a.sql"] [cRow0] "tenant" = [] ∧
      specPending ["001-a.sql"] [cRow0] "tenant" = ["001-a.sql"] ∧
      pendingOf ["001-a.sql"] [cRow0] "tenant" ≠
        specPending ["001-a.sql"] [cRow0] "tenant" := by decide

/-- C1 (amended): for every tenant and discovered list, the pending set of
`run_migrations` and of `check_migrations_status` equals the discovered
names minus those with ANY ledger row for the tenant (success or error),
sorted ascending; a script whose only ledger rows have status `error` is
NOT pending. -/
theorem pending_characterization (env : Env) (ledger : Ledger) (app : String)
    (files : List String) (happ : env.appName = some app)
    (hfiles : env.files = some files) :
    (∀ f, f ∈ pendingOf files ledger app ↔
        f ∈ files ∧ ¬ ∃ r ∈ ledger, r.name = f ∧ r.name_app = app) ∧
      (pendingOf files ledger app).Pairwise strLe ∧
      (check_migrations_status env ledger).2.1 = pendingOf files ledger app := by
  refine ⟨fun f => mem_pendingOf_iff files ledger app f,
    List.sorted_insertionSort strLe _, ?_⟩
  unfold check_migrations_status
  rw [happ, hfiles]
  dsimp only
  split
  · rfl
  · rename_i hcond
    rw [Bool.or_eq_true, not_or] at hcond
    obtain ⟨h1, _⟩ := hcond
    rw [Bool.not_eq_true, Bool.not_eq_false'] at h1
    rw [List.isEmpty_iff] at h1
    exact h1.symm

/-- Witness for the amended C1 at a concrete ledger. -/
theorem pending_characterization_witness :
    (∀ f, f ∈ pendingOf ["001-a.sql"] [cRow0] "tenant" ↔
        f ∈ ["001-a.sql"] ∧ ¬ ∃ r ∈ [cRow0], r.name = f ∧ r.name_app = "tenant") ∧
      (pendingOf ["001-a.sql"] [cRow0] "tenant").Pairwise strLe ∧
      (check_migrations_status envAllOk [cRow0]).2.1 =
        pendingOf ["001-a.sql"] [cRow0] "tenant" :=
  pending_characterization envAllOk [cRow0] "tenant" ["001-a.sql"] rfl rfl

/-- C2 (code bug): the error-row INSERT's bind parameters do not resolve —
its text requires `:name_app` but the dict supplies the key `"app_name"` —
so after a failed statement the attempted error insert raises, is
swallowed, and the ledger is left WITHOUT any error row; `apply_migration`
still returns `False` without re-raising.  The concrete failing script
shows the ledger unchanged where the claim requires an inserted error
row. -/
theorem error_row_never_written :
    bindsResolve errorInsertBindNames errorInsertParamKeys = false ∧
      apply_migration envStmtFail [] "001-bad.sql" "tenant" =
        { ok := false, ledger := [] } := by decide

/-- C7: the exposed completion check answers straight from the process-wide
flag when it is set, and otherwise falls back to the boolean of a fresh
`check_migrations_status` computation. -/
theorem readyz_flag_fallback (env : Env) (ledger : Ledger) (flag : Bool) :
    readyz_check_migrations flag env ledger =
      (is_migration_complete flag || (check_migrations_status env ledger).1) := by
  cases flag <;> rfl

/-- C8: a second run right after a fully successful run applies nothing:
it returns an empty applied list and performs no ledger insertions. -/
theorem run_idempotent (env : Env) (ledger : Ledger) (app : String)
    (files : List String) (happ : env.appName = some app)
    (hfiles : env.files = some files)
    (hok : ∀ f ∈ pendingOf files ledger app, applyOk env f = true) :
    run_migrations env (run_migrations env ledger).ledger =
      { result := Except.ok [],
        ledger := (run_migrations env ledger).ledger,
        flag := true } := by
  by_cases hp : (pendingOf files ledger app).isEmpty = true
  · have hrun : run_migrations env ledger =
        { result := Except.ok [], ledger := ledger, flag := true } := by
      unfold run_migrations
      rw [happ, hfiles]
      dsimp only
      rw [if_pos hp]
    rw [hrun]
    unfold run_migrations
    rw [happ, hfiles]
    dsimp only
    rw [if_pos hp]
  · have htw : (pendingOf files ledger app).takeWhile (applyOk env) =
        pendingOf files ledger app := List.takeWhile_eq_self_iff.mpr hok
    have hrun : run_migrations env ledger =
        { result := Except.ok (pendingOf files ledger app),
          ledger := ledger ++ successExt env app ledger.length (pendingOf files ledger app),
          flag := true } := by
      unfold run_migrations
      rw [happ, hfiles]
      dsimp only
      rw [if_neg hp, applyLoop_eq]
      dsimp only
      rw [htw, List.all_eq_true.mpr hok]
      simp
    rw [hrun]
    dsimp only
    have hempty : pendingOf files
        (ledger ++ successExt env app ledger.length (pendingOf files ledger app)) app = [] := by
      rw [List.eq_nil_iff_forall_not_mem]
      intro f hf
      rw [mem_pendingOf_iff] at hf
      obtain ⟨hfl, hnorow⟩ := hf
      by_cases hfp : f ∈ pendingOf files ledger app
      · obtain ⟨r, hr, hprops⟩ := successExt_mem env app _ ledger.length f hfp
        exact hnorow ⟨r, List.mem_append_right _ hr, hprops⟩
      · rw [mem_pendingOf_iff] at hfp
        push_neg at hfp
        obtain ⟨r, hr, hprops⟩ := hfp hfl
        exact hnorow ⟨r, List.mem_append_left _ hr, hprops⟩
    unfold run_migrations
    rw [happ, hfiles]
    dsimp only
    rw [hempty]
    simp

/-- Witness for C8 at a concrete run. -/
theorem run_idempotent_witness :
    (∀ f ∈ pendingOf ["001-a.sql"] ([] : Ledger) "tenant", applyOk envAllOk f = true) ∧
      run_migrations envAllOk (run_migrations envAllOk []).ledger =
        { result := Except.ok [],
          ledger := (run_migrations envAllOk []).ledger,
          flag := true } :=
  ⟨by decide, run_idempotent envAllOk [] "tenant" ["001-a.sql"] rfl rfl (by decide)⟩

/-! ## Latest-attempt lemmas for `get_applied_migrations` (C10) -/

theorem dictLookup_dictInsert (k x : String) (v : String × Nat × String) :
    ∀ d : MigDict, dictLookup (dictInsert d k v) x =
      if x = k then some v else dictLookup d x := by
  intro d
  induction d with
  | nil =>
    simp only [dictInsert, dictLookup, List.find?]
    by_cases hxk : x = k
    · subst hxk
      simp
    · have hne : (k == x) = false := by
        simp only [beq_eq_false_iff_ne, ne_eq]
        exact fun h => hxk h.symm
      simp [hne, hxk]
  | cons p rest ih =>
    simp only [dictInsert]
    cases hpk : (p.1 == k) with
    | true =>
      rw [if_pos rfl]
      have hk : p.1 = k := by simpa using hpk
      by_cases hxk : x = k
      · subst hxk
        simp [dictLookup, List.find?_cons, hk]
      · have h1 : (p.1 == x) = false := by
          rw [hk]
          simp only [beq_eq_false_iff_ne, ne_eq]
          exact fun h => hxk h.symm
        simp [dictLookup, List.find?_cons, h1, hxk]
    | false =>
      rw [if_neg (by simp)]
      cases hpx : (p.1 == x) with
      | true =>
        have hp1x : p.1 = x := by simpa using hpx
        have hk2 : ¬ p.1 = k := by simpa using hpk
        have hxk : ¬ x = k := fun hcontra => hk2 (hp1x.trans hcontra)
        have hL : dictLookup (p :: dictInsert rest k v) x = some p.2 := by
          simp [dictLookup, List.find?_cons, hpx]
        have hR : dictLookup (p :: rest) x = some p.2 := by
          simp [dictLookup, List.find?_cons, hpx]
        rw [hL, if_neg hxk, hR]
      | false =>
        have hL : dictLookup (p :: dictInsert rest k v) x =
            dictLookup (dictInsert rest k v) x := by
          simp [dictLookup, List.find?_cons, hpx]
        have hR : dictLookup (p :: rest) x = dictLookup rest x := by
          simp [dictLookup, List.find?_cons, hpx]
        rw [hL, hR, ih]

theorem foldl_dictInsert_lookup (x : String) :
    ∀ (l : List Row) (d : MigDict),
      dictLookup (l.foldl (fun d r => dictInsert d r.name (rowData r)) d) x =
        match (l.filter (fun r => r.name == x)).getLast? with
        | some s => some (rowData s)
        | none => dictLookup d x := by
  intro l
  induction l with
  | nil => intro d; simp
  | cons r rest ih =>
    intro d
    simp only [List.foldl_cons, List.filter_cons]
    rw [ih]
    cases hrx : (r.name == x) with
    | false =>
      rw [if_neg (by simp)]
      cases hlast : (rest.filter (fun s => s.name == x)).getLast? with
      | some s => simp [hlast]
      | none =>
        simp only [hlast]
        rw [dictLookup_dictInsert]
        have hxr : ¬ x = r.name := by
          have := (beq_eq_false_iff_ne (a := r.name) (b := x)).mp hrx
          exact fun h => this h.symm
        rw [if_neg hxr]
    | true =>
      rw [if_pos rfl]
      cases hl : rest.filter (fun s => s.name == x) with
      | nil =>
        simp only [List.getLast?_nil, List.getLast?_singleton]
        rw [dictLookup_dictInsert]
        have hx : x = r.name := (beq_iff_eq.mp hrx).symm
        rw [if_pos hx]
      | cons b l2 =>
        rw [List.getLast?_cons_cons, List.getLast?_eq_getLast (b :: l2) (by simp)]

theorem sorted_rowLe_le_getLast :
    ∀ (l : List Row), l.Sorted rowLe → ∀ a ∈ l, ∀ (h : l ≠ []), rowLe a (l.getLast h) := by
  intro l
  induction l with
  | nil => intro _ a ha; simp at ha
  | cons x rest ih =>
    intro hs a ha h
    cases rest with
    | nil =>
      rcases List.mem_cons.mp ha with h2 | h2
      · subst h2; exact Nat.le_refl _
      · simp at h2
    | cons y l2 =>
      have hg : (x :: y :: l2).getLast h = (y :: l2).getLast (List.cons_ne_nil y l2) := rfl
      rw [hg]
      rcases List.mem_cons.mp ha with h2 | h2
      · subst h2
        exact (List.sorted_cons.mp hs).1 _ (List.getLast_mem _)
      · exact ih (List.sorted_cons.mp hs).2 a h2 _

/-- C10: when the ledger holds several attempt rows for one
(script name, tenant) pair, `get_applied_migrations` maps that name to the
checksum, execution time and status of the row with the latest apply
timestamp: rows are read in apply-time order and a later row overwrites
the earlier dictionary entry. -/
theorem latest_attempt_wins (ledger : Ledger) (app name : String) (r : Row)
    (hr : r ∈ ledger) (hname : r.name = name) (happ : r.name_app = app)
    (hlatest : ∀ s ∈ ledger, s.name = name → s.name_app = app → s ≠ r →
      s.applied_at < r.applied_at) :
    dictLookup (get_applied_migrations ledger app) name = some (rowData r) := by
  unfold get_applied_migrations
  rw [foldl_dictInsert_lookup]
  set Q := ledgerQuery ledger app with hQ
  set F := Q.filter (fun s => s.name == name) with hF
  have hrQ : r ∈ Q := by
    rw [hQ]
    unfold ledgerQuery
    rw [(List.perm_insertionSort rowLe _).mem_iff, rowsFor, List.mem_filter]
    exact ⟨hr, by simp [happ]⟩
  have hrF : r ∈ F := by
    rw [hF, List.mem_filter]
    exact ⟨hrQ, by simp [hname]⟩
  have hFne : F ≠ [] := List.ne_nil_of_mem hrF
  have hQs : Q.Sorted rowLe := List.sorted_insertionSort rowLe _
  have hFs : F.Sorted rowLe := List.Pairwise.sublist (List.filter_sublist Q) hQs
  have hFprops : ∀ s ∈ F, s ∈ ledger ∧ s.name = name ∧ s.name_app = app := by
    intro s hs
    rw [hF, List.mem_filter] at hs
    obtain ⟨hsQ, hsname⟩ := hs
    rw [hQ] at hsQ
    unfold ledgerQuery at hsQ
    rw [(List.perm_insertionSort rowLe _).mem_iff, rowsFor, List.mem_filter] at hsQ
    exact ⟨hsQ.1, by simpa using hsname, by simpa using hsQ.2⟩
  have hle : rowLe r (F.getLast hFne) := sorted_rowLe_le_getLast F hFs r hrF hFne
  have heq : F.getLast hFne = r := by
    by_contra hne2
    obtain ⟨hsl, hsn, hsa⟩ := hFprops _ (List.getLast_mem hFne)
    have hlt := hlatest _ hsl hsn hsa hne2
    unfold rowLe at hle
    omega
  rw [List.getLast?_eq_getLast F hFne, heq]

/-- Witness for C10: two attempts for the same script; the mapping carries
the later (successful) row's data. -/
theorem latest_attempt_wins_witness :
    (cRow1 ∈ [cRow0, cRow1] ∧ cRow1.name = "001-a.sql" ∧ cRow1.name_app = "tenant" ∧
        (∀ s ∈ [cRow0, cRow1], s.name = "001-a.sql" → s.name_app = "tenant" →
          s ≠ cRow1 → s.applied_at < cRow1.applied_at)) ∧
      dictLookup (get_applied_migrations [cRow0, cRow1] "tenant") "001-a.sql" =
        some (rowData cRow1) :=
  ⟨⟨by decide, rfl, rfl, by decide⟩,
   latest_attempt_wins [cRow0, cRow1] "tenant" "001-a.sql" cRow1 (by decide) rfl rfl
     (by decide)⟩

end Migration
